import Mathlib

/-!
# Column extraction from `INSERT` statements — verification of the tokenizer
and column-list extractor

Shallow embedding of the repository's `columnExtractor`: the rune-by-rune
tokenizer (`parse` with its helpers `parseUntilClosingBackTick`,
`parseUntilClosingSingleQuote`, `parseNonQuotedIdentifier`) and the
token-stream extractor (`columns`).  The query is modelled as its sequence of
Unicode code points (`List Char`); the byte cursor of the source corresponds
to walking this list, since the source always decodes the next code point and
advances by its width.  The tokenizer's main loop is written with an explicit
fuel argument that bounds the number of loop iterations; fuel equal to the
input length is proven sufficient, which is exactly the source's termination
argument (every iteration first consumes one code point).
-/

namespace ColumnParsing

/-- The backtick quote character, code point 96. -/
def backTick : Char := Char.ofNat 96

/-- The single-quote character, code point 39. -/
def singleQuote : Char := Char.ofNat 39

/-- The backslash character, code point 92. -/
def backslash : Char := Char.ofNat 92

/-- The characters inserted into `validIdentifierChars` by the package's
initialization loop. -/
def identifierChars : List Char :=
  "abcdefghijklmnopqrstuvwxyzABCDEFGHIJKLMNOPQRSTUVWXYZ0123456789_".data

/-- Membership in the valid-identifier-character lookup table. -/
def validIdentifierChars (r : Char) : Bool := identifierChars.contains r

/-- `isSpace` from the source: space, tab or newline. -/
def isSpace (r : Char) : Bool := r = ' ' || r = '\t' || r = '\n'

/-- The error values produced by the tokenizer (`fmt.Errorf` values in the
source, distinguished here by kind). -/
inductive ParseError where
  | unclosedBacktick : ParseError
  | unclosedSingleQuote : ParseError
  | unexpectedRune : Char → ParseError
deriving DecidableEq

/-- `parseUntilClosingBackTick`: consume code points, appending each to the
current token, until a backtick is read whose preceding accumulated code
point (`currToken[len(currToken)-2]` in the source) is not a backslash.
Returns the finished token (`none` models the nil token returned with the
unclosed-quote error) together with the unconsumed remainder of the query. -/
def parseUntilClosingBackTick : List Char → List Char → Option (List Char) × List Char
  | [], _ => (none, [])
  | r :: rest, currToken =>
    if r = backTick ∧ (currToken ++ [r]).getD ((currToken ++ [r]).length - 2) ' ' ≠ backslash then
      (some (currToken ++ [r]), rest)
    else
      parseUntilClosingBackTick rest (currToken ++ [r])

/-- `parseUntilClosingSingleQuote`: identical to the backtick scanner with the
single-quote delimiter. -/
def parseUntilClosingSingleQuote : List Char → List Char → Option (List Char) × List Char
  | [], _ => (none, [])
  | r :: rest, currToken =>
    if r = singleQuote ∧ (currToken ++ [r]).getD ((currToken ++ [r]).length - 2) ' ' ≠ backslash then
      (some (currToken ++ [r]), rest)
    else
      parseUntilClosingSingleQuote rest (currToken ++ [r])

/-- `parseNonQuotedIdentifier`: consume identifier characters; the first
non-identifier code point is not consumed (the main loop re-examines it). -/
def parseNonQuotedIdentifier : List Char → List Char → List Char × List Char
  | [], currToken => (currToken, [])
  | r :: rest, currToken =>
    if validIdentifierChars r then
      parseNonQuotedIdentifier rest (currToken ++ [r])
    else
      (currToken, r :: rest)

/-- The main scanning loop of `parse`.  The `fuel` argument bounds the number
of loop iterations: each iteration consumes at least the one code point it
dispatches on, so fuel equal to the remaining input length is sufficient
(proven below); with insufficient fuel the remainder of the input is dropped.
On a successful quote scan the full token is emitted; on a failed one the
source appends `string(nil)`, the empty token, together with the error. -/
def parseLoop : Nat → List Char → List String × List ParseError
  | _, [] => ([], [])
  | 0, _ :: _ => ([], [])
  | fuel + 1, r :: rest =>
    if isSpace r then
      parseLoop fuel rest
    else if r = backTick then
      match parseUntilClosingBackTick rest [r] with
      | (some token, rest') =>
        (String.mk token :: (parseLoop fuel rest').1, (parseLoop fuel rest').2)
      | (none, rest') =>
        (String.mk [] :: (parseLoop fuel rest').1,
          ParseError.unclosedBacktick :: (parseLoop fuel rest').2)
    else if r = singleQuote then
      match parseUntilClosingSingleQuote rest [r] with
      | (some token, rest') =>
        (String.mk token :: (parseLoop fuel rest').1, (parseLoop fuel rest').2)
      | (none, rest') =>
        (String.mk [] :: (parseLoop fuel rest').1,
          ParseError.unclosedSingleQuote :: (parseLoop fuel rest').2)
    else if r = '(' ∨ r = ')' ∨ r = ',' ∨ r = '.' then
      (String.mk [r] :: (parseLoop fuel rest).1, (parseLoop fuel rest).2)
    else if validIdentifierChars r then
      match parseNonQuotedIdentifier rest [r] with
      | (token, rest') =>
        (String.mk token :: (parseLoop fuel rest').1, (parseLoop fuel rest').2)
    else
      ((parseLoop fuel rest).1, ParseError.unexpectedRune r :: (parseLoop fuel rest).2)

/-- `columnExtractor.parse`: tokenize the whole query, returning the token
stream and the collected errors (`errors.Join` of the source corresponds to
the list of errors; the empty list is the nil error). -/
def parse (query : String) : List String × List ParseError :=
  parseLoop query.data.length query.data

/-- The loop of `columnExtractor.columns`, with the
`openingParenthesisObserved` flag explicit.  A `(` token sets the flag, a `)`
token ends the scan at once, and any other token except `,` is collected when
the flag is set. -/
def columnsGo : List String → Bool → List String
  | [], _ => []
  | token :: rest, openingParenthesisObserved =>
    if token = "(" then columnsGo rest true
    else if token = ")" then []
    else if openingParenthesisObserved = true ∧ token ≠ "," then
      token :: columnsGo rest openingParenthesisObserved
    else
      columnsGo rest openingParenthesisObserved

/-- `columnExtractor.columns`: extract the column list from a token stream. -/
def columns (tokens : List String) : List String := columnsGo tokens false

/-- Tokenize then extract, as the callers of `columnExtractor` do. -/
def extractColumns (query : String) : List String := columns (parse query).1

/-- Instrumentation for the backtick scanner's look-back: the length of the
accumulated token at each point where the scanner evaluates
`currToken[len(currToken)-2]` (the look-back is evaluated exactly when the
code point just read is the closing-quote candidate). -/
def backTickLookbackLens : List Char → List Char → List Nat
  | [], _ => []
  | r :: rest, currToken =>
    if r = backTick then
      if (currToken ++ [r]).getD ((currToken ++ [r]).length - 2) ' ' ≠ backslash then
        [(currToken ++ [r]).length]
      else
        (currToken ++ [r]).length :: backTickLookbackLens rest (currToken ++ [r])
    else backTickLookbackLens rest (currToken ++ [r])

/-- Instrumentation for the single-quote scanner's look-back, as for
`backTickLookbackLens`. -/
def singleQuoteLookbackLens : List Char → List Char → List Nat
  | [], _ => []
  | r :: rest, currToken =>
    if r = singleQuote then
      if (currToken ++ [r]).getD ((currToken ++ [r]).length - 2) ' ' ≠ backslash then
        [(currToken ++ [r]).length]
      else
        (currToken ++ [r]).length :: singleQuoteLookbackLens rest (currToken ++ [r])
    else singleQuoteLookbackLens rest (currToken ++ [r])

/-! ## Structural lemmas about the scanners -/

theorem getD_concat_lookback (curr : List Char) (x d : Char) (h : curr ≠ []) :
    (curr ++ [x]).getD ((curr ++ [x]).length - 2) d = curr.getLast?.getD d := by
  have hl : curr.length - 1 < curr.length := by
    cases curr with
    | nil => exact absurd rfl h
    | cons a l => simp
  simp only [List.getD_eq_getElem?_getD, List.length_append, List.length_cons,
    List.length_nil, Nat.zero_add]
  have hidx : curr.length + 1 - 2 = curr.length - 1 := by omega
  rw [hidx, List.getElem?_append_left hl, List.getLast?_eq_getElem?]

theorem parseUntilClosingBackTick_success_shape : ∀ (input currToken tok rest' : List Char),
    parseUntilClosingBackTick input currToken = (some tok, rest') →
    ∃ extra, extra ≠ [] ∧ tok = currToken ++ extra := by
  intro input
  induction input with
  | nil =>
    intro currToken tok rest' h
    simp [parseUntilClosingBackTick] at h
  | cons r rest ih =>
    intro currToken tok rest' h
    simp only [parseUntilClosingBackTick] at h
    split at h
    · injection h with h1 h2
      exact ⟨[r], by simp, (Option.some.inj h1).symm⟩
    · obtain ⟨extra, hne, hext⟩ := ih (currToken ++ [r]) tok rest' h
      refine ⟨r :: extra, by simp, ?_⟩
      rw [hext]
      simp

theorem parseUntilClosingSingleQuote_success_shape : ∀ (input currToken tok rest' : List Char),
    parseUntilClosingSingleQuote input currToken = (some tok, rest') →
    ∃ extra, extra ≠ [] ∧ tok = currToken ++ extra := by
  intro input
  induction input with
  | nil =>
    intro currToken tok rest' h
    simp [parseUntilClosingSingleQuote] at h
  | cons r rest ih =>
    intro currToken tok rest' h
    simp only [parseUntilClosingSingleQuote] at h
    split at h
    · injection h with h1 h2
      exact ⟨[r], by simp, (Option.some.inj h1).symm⟩
    · obtain ⟨extra, hne, hext⟩ := ih (currToken ++ [r]) tok rest' h
      refine ⟨r :: extra, by simp, ?_⟩
      rw [hext]
      simp

theorem parseUntilClosingBackTick_fail : ∀ (input currToken : List Char),
    (parseUntilClosingBackTick input currToken).1 = none →
    (parseUntilClosingBackTick input currToken).2 = [] := by
  intro input
  induction input with
  | nil =>
    intro currToken _
    simp [parseUntilClosingBackTick]
  | cons r rest ih =>
    intro currToken h
    simp only [parseUntilClosingBackTick] at h ⊢
    split at h
    · simp at h
    · rename_i hc
      rw [if_neg hc]
      exact ih _ h

theorem parseUntilClosingSingleQuote_fail : ∀ (input currToken : List Char),
    (parseUntilClosingSingleQuote input currToken).1 = none →
    (parseUntilClosingSingleQuote input currToken).2 = [] := by
  intro input
  induction input with
  | nil =>
    intro currToken _
    simp [parseUntilClosingSingleQuote]
  | cons r rest ih =>
    intro currToken h
    simp only [parseUntilClosingSingleQuote] at h ⊢
    split at h
    · simp at h
    · rename_i hc
      rw [if_neg hc]
      exact ih _ h

theorem parseUntilClosingBackTick_rest_le : ∀ (input currToken : List Char),
    (parseUntilClosingBackTick input currToken).2.length ≤ input.length := by
  intro input
  induction input with
  | nil =>
    intro currToken
    simp [parseUntilClosingBackTick]
  | cons r rest ih =>
    intro currToken
    simp only [parseUntilClosingBackTick]
    split
    · simp
    · calc (parseUntilClosingBackTick rest (currToken ++ [r])).2.length
          ≤ rest.length := ih _
        _ ≤ (r :: rest).length := by simp

theorem parseUntilClosingSingleQuote_rest_le : ∀ (input currToken : List Char),
    (parseUntilClosingSingleQuote input currToken).2.length ≤ input.length := by
  intro input
  induction input with
  | nil =>
    intro currToken
    simp [parseUntilClosingSingleQuote]
  | cons r rest ih =>
    intro currToken
    simp only [parseUntilClosingSingleQuote]
    split
    · simp
    · calc (parseUntilClosingSingleQuote rest (currToken ++ [r])).2.length
          ≤ rest.length := ih _
        _ ≤ (r :: rest).length := by simp

theorem parseNonQuotedIdentifier_shape : ∀ (input currToken : List Char),
    ∃ extra, (parseNonQuotedIdentifier input currToken).1 = currToken ++ extra := by
  intro input
  induction input with
  | nil =>
    intro currToken
    exact ⟨[], by simp [parseNonQuotedIdentifier]⟩
  | cons r rest ih =>
    intro currToken
    simp only [parseNonQuotedIdentifier]
    split
    · obtain ⟨extra, hext⟩ := ih (currToken ++ [r])
      refine ⟨r :: extra, ?_⟩
      rw [hext]
      simp
    · exact ⟨[], by simp⟩

theorem parseNonQuotedIdentifier_rest_le : ∀ (input currToken : List Char),
    (parseNonQuotedIdentifier input currToken).2.length ≤ input.length := by
  intro input
  induction input with
  | nil =>
    intro currToken
    simp [parseNonQuotedIdentifier]
  | cons r rest ih =>
    intro currToken
    simp only [parseNonQuotedIdentifier]
    split
    · calc (parseNonQuotedIdentifier rest (currToken ++ [r])).2.length
          ≤ rest.length := ih _
        _ ≤ (r :: rest).length := by simp
    · simp

theorem getLast_getD_ne (l : List Char) (x : Char) (hne : l ≠ [])
    (h : l.getLast? ≠ some x) : l.getLast?.getD ' ' ≠ x := by
  cases hx : l.getLast? with
  | none =>
    rw [List.getLast?_eq_none_iff] at hx
    exact absurd hx hne
  | some y =>
    intro hyx
    apply h
    rw [hx]
    simp only [Option.getD_some] at hyx
    rw [hyx]

theorem parseUntilClosingBackTick_absorb : ∀ (content rest currToken : List Char),
    backTick ∉ content → currToken ≠ [] →
    (currToken ++ content).getLast? ≠ some backslash →
    parseUntilClosingBackTick (content ++ backTick :: rest) currToken =
      (some (currToken ++ content ++ [backTick]), rest) := by
  intro content
  induction content with
  | nil =>
    intro rest currToken _ hne hlast
    simp only [List.append_nil] at hlast
    simp only [List.nil_append, List.append_nil, parseUntilClosingBackTick,
      eq_self_iff_true, true_and]
    rw [if_pos (by
      rw [getD_concat_lookback _ _ _ hne]
      exact getLast_getD_ne _ _ hne hlast)]
  | cons c cs ih =>
    intro rest currToken hmem hne hlast
    have hc : c ≠ backTick := fun h => hmem (h ▸ List.mem_cons_self c cs)
    simp only [List.cons_append, parseUntilClosingBackTick]
    rw [if_neg (fun hb => hc hb.1)]
    have hmem' : backTick ∉ cs := fun h => hmem (List.mem_cons_of_mem c h)
    have hlast' : ((currToken ++ [c]) ++ cs).getLast? ≠ some backslash := by
      rw [List.append_assoc]
      simpa using hlast
    exact (ih rest (currToken ++ [c]) hmem' (by simp) hlast').trans (by simp)

theorem parseUntilClosingSingleQuote_absorb : ∀ (content rest currToken : List Char),
    singleQuote ∉ content → currToken ≠ [] →
    (currToken ++ content).getLast? ≠ some backslash →
    parseUntilClosingSingleQuote (content ++ singleQuote :: rest) currToken =
      (some (currToken ++ content ++ [singleQuote]), rest) := by
  intro content
  induction content with
  | nil =>
    intro rest currToken _ hne hlast
    simp only [List.append_nil] at hlast
    simp only [List.nil_append, List.append_nil, parseUntilClosingSingleQuote,
      eq_self_iff_true, true_and]
    rw [if_pos (by
      rw [getD_concat_lookback _ _ _ hne]
      exact getLast_getD_ne _ _ hne hlast)]
  | cons c cs ih =>
    intro rest currToken hmem hne hlast
    have hc : c ≠ singleQuote := fun h => hmem (h ▸ List.mem_cons_self c cs)
    simp only [List.cons_append, parseUntilClosingSingleQuote]
    rw [if_neg (fun hb => hc hb.1)]
    have hmem' : singleQuote ∉ cs := fun h => hmem (List.mem_cons_of_mem c h)
    have hlast' : ((currToken ++ [c]) ++ cs).getLast? ≠ some backslash := by
      rw [List.append_assoc]
      simpa using hlast
    exact (ih rest (currToken ++ [c]) hmem' (by simp) hlast').trans (by simp)

theorem parseUntilClosingBackTick_step_iff (r : Char) (rest currToken : List Char)
    (h : currToken ≠ []) :
    parseUntilClosingBackTick (r :: rest) currToken = (some (currToken ++ [r]), rest) ↔
      (r = backTick ∧ currToken.getLast? ≠ some backslash) := by
  constructor
  · intro heq
    by_cases hc : r = backTick ∧
        (currToken ++ [r]).getD ((currToken ++ [r]).length - 2) ' ' ≠ backslash
    · refine ⟨hc.1, ?_⟩
      have h2 := hc.2
      rw [getD_concat_lookback _ _ _ h] at h2
      intro hsome
      rw [hsome] at h2
      simp at h2
    · simp only [parseUntilClosingBackTick] at heq
      rw [if_neg hc] at heq
      obtain ⟨extra, hne, hext⟩ :=
        parseUntilClosingBackTick_success_shape _ _ _ _ heq
      have hex : extra = [] := by simpa using congrArg List.length hext
      exact absurd hex hne
  · intro hcond
    simp only [parseUntilClosingBackTick]
    rw [if_pos ⟨hcond.1, by
      rw [getD_concat_lookback _ _ _ h]
      exact getLast_getD_ne _ _ h hcond.2⟩]

theorem parseUntilClosingSingleQuote_step_iff (r : Char) (rest currToken : List Char)
    (h : currToken ≠ []) :
    parseUntilClosingSingleQuote (r :: rest) currToken = (some (currToken ++ [r]), rest) ↔
      (r = singleQuote ∧ currToken.getLast? ≠ some backslash) := by
  constructor
  · intro heq
    by_cases hc : r = singleQuote ∧
        (currToken ++ [r]).getD ((currToken ++ [r]).length - 2) ' ' ≠ backslash
    · refine ⟨hc.1, ?_⟩
      have h2 := hc.2
      rw [getD_concat_lookback _ _ _ h] at h2
      intro hsome
      rw [hsome] at h2
      simp at h2
    · simp only [parseUntilClosingSingleQuote] at heq
      rw [if_neg hc] at heq
      obtain ⟨extra, hne, hext⟩ :=
        parseUntilClosingSingleQuote_success_shape _ _ _ _ heq
      have hex : extra = [] := by simpa using congrArg List.length hext
      exact absurd hex hne
  · intro hcond
    simp only [parseUntilClosingSingleQuote]
    rw [if_pos ⟨hcond.1, by
      rw [getD_concat_lookback _ _ _ h]
      exact getLast_getD_ne _ _ h hcond.2⟩]

theorem backTickLookbackLens_ge_two : ∀ (input currToken : List Char), currToken ≠ [] →
    ∀ n ∈ backTickLookbackLens input currToken, 2 ≤ n := by
  intro input
  induction input with
  | nil =>
    intro currToken _ n hn
    simp [backTickLookbackLens] at hn
  | cons r rest ih =>
    intro currToken hne n hn
    have hlen : 1 ≤ currToken.length := by
      cases currToken with
      | nil => exact absurd rfl hne
      | cons a l => simp
    simp only [backTickLookbackLens] at hn
    split at hn
    · split at hn
      · simp only [List.mem_singleton] at hn
        rw [hn]
        simp only [List.length_append, List.length_cons, List.length_nil]
        omega
      · rcases List.mem_cons.mp hn with hhead | htail
        · rw [hhead]
          simp only [List.length_append, List.length_cons, List.length_nil]
          omega
        · exact ih (currToken ++ [r]) (by simp) n htail
    · exact ih (currToken ++ [r]) (by simp) n hn

theorem singleQuoteLookbackLens_ge_two : ∀ (input currToken : List Char), currToken ≠ [] →
    ∀ n ∈ singleQuoteLookbackLens input currToken, 2 ≤ n := by
  intro input
  induction input with
  | nil =>
    intro currToken _ n hn
    simp [singleQuoteLookbackLens] at hn
  | cons r rest ih =>
    intro currToken hne n hn
    have hlen : 1 ≤ currToken.length := by
      cases currToken with
      | nil => exact absurd rfl hne
      | cons a l => simp
    simp only [singleQuoteLookbackLens] at hn
    split at hn
    · split at hn
      · simp only [List.mem_singleton] at hn
        rw [hn]
        simp only [List.length_append, List.length_cons, List.length_nil]
        omega
      · rcases List.mem_cons.mp hn with hhead | htail
        · rw [hhead]
          simp only [List.length_append, List.length_cons, List.length_nil]
          omega
        · exact ih (currToken ++ [r]) (by simp) n htail
    · exact ih (currToken ++ [r]) (by simp) n hn

/-! ## Lemmas about the main scanning loop -/

theorem parseLoop_nil (fuel : Nat) : parseLoop fuel [] = ([], []) := by
  cases fuel <;> rfl

theorem parseLoop_space (fuel : Nat) (r : Char) (rest : List Char) (h : isSpace r = true) :
    parseLoop (fuel + 1) (r :: rest) = parseLoop fuel rest := by
  simp only [parseLoop]
  rw [if_pos h]

theorem parseLoop_openParen (fuel : Nat) (rest : List Char) :
    parseLoop (fuel + 1) ('(' :: rest) =
      (String.mk ['('] :: (parseLoop fuel rest).1, (parseLoop fuel rest).2) := by
  simp only [parseLoop]
  rw [if_neg (by decide), if_neg (by decide), if_neg (by decide), if_pos (by decide)]

theorem parseLoop_unexpected (fuel : Nat) (r : Char) (rest : List Char)
    (hsp : isSpace r = false) (hbt : r ≠ backTick) (hsq : r ≠ singleQuote)
    (hpunct : ¬(r = '(' ∨ r = ')' ∨ r = ',' ∨ r = '.'))
    (hident : validIdentifierChars r = false) :
    parseLoop (fuel + 1) (r :: rest) =
      ((parseLoop fuel rest).1, ParseError.unexpectedRune r :: (parseLoop fuel rest).2) := by
  simp only [parseLoop]
  rw [if_neg (by rw [hsp]; exact Bool.false_ne_true), if_neg hbt, if_neg hsq,
    if_neg hpunct, if_neg (by rw [hident]; exact Bool.false_ne_true)]

theorem parseLoop_backTick_unclosed (fuel : Nat) (rest : List Char)
    (h : (parseUntilClosingBackTick rest [backTick]).1 = none) :
    parseLoop (fuel + 1) (backTick :: rest) =
      ([String.mk []], [ParseError.unclosedBacktick]) := by
  have h2 := parseUntilClosingBackTick_fail rest [backTick] h
  simp only [parseLoop]
  rw [if_neg (by decide), if_pos trivial]
  rcases heq : parseUntilClosingBackTick rest [backTick] with ⟨o, rest'⟩
  rw [heq] at h h2
  dsimp only at h h2
  subst h
  subst h2
  dsimp only
  rw [parseLoop_nil]

theorem parseLoop_singleQuote_unclosed (fuel : Nat) (rest : List Char)
    (h : (parseUntilClosingSingleQuote rest [singleQuote]).1 = none) :
    parseLoop (fuel + 1) (singleQuote :: rest) =
      ([String.mk []], [ParseError.unclosedSingleQuote]) := by
  have h2 := parseUntilClosingSingleQuote_fail rest [singleQuote] h
  simp only [parseLoop]
  rw [if_neg (by decide), if_neg (by decide), if_pos trivial]
  rcases heq : parseUntilClosingSingleQuote rest [singleQuote] with ⟨o, rest'⟩
  rw [heq] at h h2
  dsimp only at h h2
  subst h
  subst h2
  dsimp only
  rw [parseLoop_nil]

theorem parseLoop_fuel : ∀ (f g : Nat) (cs : List Char), cs.length ≤ f → cs.length ≤ g →
    parseLoop f cs = parseLoop g cs := by
  intro f
  induction f with
  | zero =>
    intro g cs hf _
    have hnil : cs = [] := List.eq_nil_of_length_eq_zero (Nat.le_zero.mp hf)
    subst hnil
    rw [parseLoop_nil, parseLoop_nil]
  | succ f ih =>
    intro g cs hf hg
    cases cs with
    | nil => rw [parseLoop_nil, parseLoop_nil]
    | cons r rest =>
      cases g with
      | zero => simp at hg
      | succ g =>
        have hrf : rest.length ≤ f := by
          simp only [List.length_cons] at hf
          omega
        have hrg : rest.length ≤ g := by
          simp only [List.length_cons] at hg
          omega
        simp only [parseLoop]
        by_cases hsp : isSpace r = true
        · rw [if_pos hsp, if_pos hsp]
          exact ih g rest hrf hrg
        · rw [if_neg hsp, if_neg hsp]
          by_cases hbt : r = backTick
          · rw [if_pos hbt, if_pos hbt]
            rcases heq : parseUntilClosingBackTick rest [r] with ⟨o, rest'⟩
            have hle : rest'.length ≤ rest.length := by
              have hb := parseUntilClosingBackTick_rest_le rest [r]
              rw [heq] at hb
              exact hb
            cases o with
            | some token =>
              dsimp only
              rw [ih g rest' (le_trans hle hrf) (le_trans hle hrg)]
            | none =>
              dsimp only
              rw [ih g rest' (le_trans hle hrf) (le_trans hle hrg)]
          · rw [if_neg hbt, if_neg hbt]
            by_cases hsq : r = singleQuote
            · rw [if_pos hsq, if_pos hsq]
              rcases heq : parseUntilClosingSingleQuote rest [r] with ⟨o, rest'⟩
              have hle : rest'.length ≤ rest.length := by
                have hb := parseUntilClosingSingleQuote_rest_le rest [r]
                rw [heq] at hb
                exact hb
              cases o with
              | some token =>
                dsimp only
                rw [ih g rest' (le_trans hle hrf) (le_trans hle hrg)]
              | none =>
                dsimp only
                rw [ih g rest' (le_trans hle hrf) (le_trans hle hrg)]
            · rw [if_neg hsq, if_neg hsq]
              by_cases hpunct : r = '(' ∨ r = ')' ∨ r = ',' ∨ r = '.'
              · rw [if_pos hpunct, if_pos hpunct]
                rw [ih g rest hrf hrg]
              · rw [if_neg hpunct, if_neg hpunct]
                by_cases hident : validIdentifierChars r = true
                · rw [if_pos hident, if_pos hident]
                  rcases heq : parseNonQuotedIdentifier rest [r] with ⟨token, rest'⟩
                  have hle : rest'.length ≤ rest.length := by
                    have hb := parseNonQuotedIdentifier_rest_le rest [r]
                    rw [heq] at hb
                    exact hb
                  dsimp only
                  rw [ih g rest' (le_trans hle hrf) (le_trans hle hrg)]
                · rw [if_neg hident, if_neg hident]
                  rw [ih g rest hrf hrg]

theorem String_mk_ne_empty (l : List Char) (h : l ≠ []) : String.mk l ≠ "" := by
  intro he
  apply h
  have h2 : (String.mk l).data = ("" : String).data := congrArg String.data he
  simpa using h2

theorem validIdentifierChars_not_space (r : Char) (h : validIdentifierChars r = true) :
    ¬isSpace r = true := by
  intro hs
  have hcases : (r = ' ' ∨ r = '\t') ∨ r = '\n' := by
    simpa [isSpace] using hs
  rcases hcases with (h1 | h1) | h1 <;> rw [h1] at h <;> exact absurd h (by decide)

theorem validIdentifierChars_not_backTick (r : Char) (h : validIdentifierChars r = true) :
    r ≠ backTick := by
  intro h1
  rw [h1] at h
  exact absurd h (by decide)

theorem validIdentifierChars_not_singleQuote (r : Char) (h : validIdentifierChars r = true) :
    r ≠ singleQuote := by
  intro h1
  rw [h1] at h
  exact absurd h (by decide)

theorem validIdentifierChars_not_punct (r : Char) (h : validIdentifierChars r = true) :
    ¬(r = '(' ∨ r = ')' ∨ r = ',' ∨ r = '.') := by
  rintro (h1 | h1 | h1 | h1) <;> rw [h1] at h <;> exact absurd h (by decide)

theorem parseLoop_backTick_success (fuel : Nat) (rest token rest' : List Char)
    (heq : parseUntilClosingBackTick rest [backTick] = (some token, rest')) :
    parseLoop (fuel + 1) (backTick :: rest) =
      (String.mk token :: (parseLoop fuel rest').1, (parseLoop fuel rest').2) := by
  simp only [parseLoop]
  rw [if_neg (by decide), if_pos trivial, heq]

theorem parseLoop_singleQuote_success (fuel : Nat) (rest token rest' : List Char)
    (heq : parseUntilClosingSingleQuote rest [singleQuote] = (some token, rest')) :
    parseLoop (fuel + 1) (singleQuote :: rest) =
      (String.mk token :: (parseLoop fuel rest').1, (parseLoop fuel rest').2) := by
  simp only [parseLoop]
  rw [if_neg (by decide), if_neg (by decide), if_pos trivial, heq]

theorem parseLoop_punct_step (fuel : Nat) (r : Char) (rest : List Char)
    (hpunct : r = '(' ∨ r = ')' ∨ r = ',' ∨ r = '.') :
    parseLoop (fuel + 1) (r :: rest) =
      (String.mk [r] :: (parseLoop fuel rest).1, (parseLoop fuel rest).2) := by
  have hsp : ¬isSpace r = true := by
    rcases hpunct with h | h | h | h <;> rw [h] <;> decide
  have hbt : r ≠ backTick := by
    rcases hpunct with h | h | h | h <;> rw [h] <;> decide
  have hsq : r ≠ singleQuote := by
    rcases hpunct with h | h | h | h <;> rw [h] <;> decide
  simp only [parseLoop]
  rw [if_neg hsp, if_neg hbt, if_neg hsq, if_pos hpunct]

theorem parseLoop_identifier_step (fuel : Nat) (r : Char) (rest : List Char)
    (hident : validIdentifierChars r = true) :
    parseLoop (fuel + 1) (r :: rest) =
      (String.mk (parseNonQuotedIdentifier rest [r]).1 ::
          (parseLoop fuel (parseNonQuotedIdentifier rest [r]).2).1,
        (parseLoop fuel (parseNonQuotedIdentifier rest [r]).2).2) := by
  simp only [parseLoop]
  rw [if_neg (validIdentifierChars_not_space r hident),
    if_neg (validIdentifierChars_not_backTick r hident),
    if_neg (validIdentifierChars_not_singleQuote r hident),
    if_neg (validIdentifierChars_not_punct r hident), if_pos hident]

theorem parseLoop_no_empty_token : ∀ (fuel : Nat) (cs : List Char),
    ParseError.unclosedBacktick ∉ (parseLoop fuel cs).2 →
    ParseError.unclosedSingleQuote ∉ (parseLoop fuel cs).2 →
    ∀ t ∈ (parseLoop fuel cs).1, t ≠ "" := by
  intro fuel
  induction fuel with
  | zero =>
    intro cs _ _ t ht
    cases cs with
    | nil =>
      rw [parseLoop_nil] at ht
      simp at ht
    | cons r rest =>
      simp only [parseLoop] at ht
      simp at ht
  | succ fuel ih =>
    intro cs hbt hsq t ht
    cases cs with
    | nil =>
      rw [parseLoop_nil] at ht
      simp at ht
    | cons r rest =>
      by_cases hsp : isSpace r = true
      · rw [parseLoop_space fuel r rest hsp] at hbt hsq ht
        exact ih rest hbt hsq t ht
      · by_cases hb : r = backTick
        · subst hb
          rcases heq : parseUntilClosingBackTick rest [backTick] with ⟨o, rest'⟩
          cases o with
          | some token =>
            rw [parseLoop_backTick_success fuel rest token rest' heq] at hbt hsq ht
            dsimp only at hbt hsq ht
            rcases List.mem_cons.mp ht with hhead | htail
            · obtain ⟨extra, hne, hext⟩ :=
                parseUntilClosingBackTick_success_shape rest [backTick] token rest' heq
              rw [hhead, hext]
              exact String_mk_ne_empty _ (by simp)
            · exact ih rest' hbt hsq t htail
          | none =>
            have hfail : (parseUntilClosingBackTick rest [backTick]).1 = none := by rw [heq]
            rw [parseLoop_backTick_unclosed fuel rest hfail] at hbt
            simp at hbt
        · by_cases hq : r = singleQuote
          · subst hq
            rcases heq : parseUntilClosingSingleQuote rest [singleQuote] with ⟨o, rest'⟩
            cases o with
            | some token =>
              rw [parseLoop_singleQuote_success fuel rest token rest' heq] at hbt hsq ht
              dsimp only at hbt hsq ht
              rcases List.mem_cons.mp ht with hhead | htail
              · obtain ⟨extra, hne, hext⟩ :=
                  parseUntilClosingSingleQuote_success_shape rest [singleQuote] token rest' heq
                rw [hhead, hext]
                exact String_mk_ne_empty _ (by simp)
              · exact ih rest' hbt hsq t htail
            | none =>
              have hfail : (parseUntilClosingSingleQuote rest [singleQuote]).1 = none := by rw [heq]
              rw [parseLoop_singleQuote_unclosed fuel rest hfail] at hsq
              simp at hsq
          · by_cases hp : r = '(' ∨ r = ')' ∨ r = ',' ∨ r = '.'
            · rw [parseLoop_punct_step fuel r rest hp] at hbt hsq ht
              dsimp only at hbt hsq ht
              rcases List.mem_cons.mp ht with hhead | htail
              · rw [hhead]
                exact String_mk_ne_empty _ (by simp)
              · exact ih rest hbt hsq t htail
            · by_cases hi : validIdentifierChars r = true
              · rw [parseLoop_identifier_step fuel r rest hi] at hbt hsq ht
                dsimp only at hbt hsq ht
                rcases List.mem_cons.mp ht with hhead | htail
                · obtain ⟨extra, hext⟩ := parseNonQuotedIdentifier_shape rest [r]
                  rw [hhead, hext]
                  exact String_mk_ne_empty _ (by simp)
                · exact ih _ hbt hsq t htail
              · rw [parseLoop_unexpected fuel r rest (by simpa using hsp) hb hq hp
                  (by simpa using hi)] at hbt hsq ht
                dsimp only at hbt hsq ht
                exact ih rest (fun hm => hbt (List.mem_cons_of_mem _ hm))
                  (fun hm => hsq (List.mem_cons_of_mem _ hm)) t ht

theorem parseLoop_unclosed_last (k : ParseError)
    (hk : k = ParseError.unclosedBacktick ∨ k = ParseError.unclosedSingleQuote) :
    ∀ (fuel : Nat) (cs : List Char), k ∈ (parseLoop fuel cs).2 →
    ∃ T E, parseLoop fuel cs = (T ++ [String.mk []], E ++ [k]) := by
  intro fuel
  induction fuel with
  | zero =>
    intro cs h
    cases cs with
    | nil =>
      rw [parseLoop_nil] at h
      simp at h
    | cons r rest =>
      simp only [parseLoop] at h
      simp at h
  | succ fuel ih =>
    intro cs h
    cases cs with
    | nil =>
      rw [parseLoop_nil] at h
      simp at h
    | cons r rest =>
      by_cases hsp : isSpace r = true
      · rw [parseLoop_space fuel r rest hsp] at h ⊢
        exact ih rest h
      · by_cases hb : r = backTick
        · subst hb
          rcases heq : parseUntilClosingBackTick rest [backTick] with ⟨o, rest'⟩
          cases o with
          | some token =>
            rw [parseLoop_backTick_success fuel rest token rest' heq] at h ⊢
            dsimp only at h
            obtain ⟨T, E, heq2⟩ := ih rest' h
            refine ⟨String.mk token :: T, E, ?_⟩
            rw [heq2]
            simp
          | none =>
            have hfail : (parseUntilClosingBackTick rest [backTick]).1 = none := by rw [heq]
            rw [parseLoop_backTick_unclosed fuel rest hfail] at h ⊢
            dsimp only at h
            have hkbt : k = ParseError.unclosedBacktick := by simpa using h
            subst hkbt
            exact ⟨[], [], by simp⟩
        · by_cases hq : r = singleQuote
          · subst hq
            rcases heq : parseUntilClosingSingleQuote rest [singleQuote] with ⟨o, rest'⟩
            cases o with
            | some token =>
              rw [parseLoop_singleQuote_success fuel rest token rest' heq] at h ⊢
              dsimp only at h
              obtain ⟨T, E, heq2⟩ := ih rest' h
              refine ⟨String.mk token :: T, E, ?_⟩
              rw [heq2]
              simp
            | none =>
              have hfail : (parseUntilClosingSingleQuote rest [singleQuote]).1 = none := by rw [heq]
              rw [parseLoop_singleQuote_unclosed fuel rest hfail] at h ⊢
              dsimp only at h
              have hksq : k = ParseError.unclosedSingleQuote := by simpa using h
              subst hksq
              exact ⟨[], [], by simp⟩
          · by_cases hp : r = '(' ∨ r = ')' ∨ r = ',' ∨ r = '.'
            · rw [parseLoop_punct_step fuel r rest hp] at h ⊢
              dsimp only at h
              obtain ⟨T, E, heq2⟩ := ih rest h
              refine ⟨String.mk [r] :: T, E, ?_⟩
              rw [heq2]
              simp
            · by_cases hi : validIdentifierChars r = true
              · rw [parseLoop_identifier_step fuel r rest hi] at h ⊢
                dsimp only at h
                obtain ⟨T, E, heq2⟩ := ih _ h
                refine ⟨String.mk (parseNonQuotedIdentifier rest [r]).1 :: T, E, ?_⟩
                rw [heq2]
                simp
              · rw [parseLoop_unexpected fuel r rest (by simpa using hsp) hb hq hp
                  (by simpa using hi)] at h ⊢
                dsimp only at h
                rcases List.mem_cons.mp h with hhead | htail
                · rcases hk with hk1 | hk1 <;> rw [hk1] at hhead <;> simp at hhead
                · obtain ⟨T, E, heq2⟩ := ih rest htail
                  refine ⟨T, ParseError.unexpectedRune r :: E, ?_⟩
                  rw [heq2]
                  simp

/-! ## Lemmas about the column-list extractor -/

theorem columnsGo_open (ts : List String) : columnsGo ("(" :: ts) false = columnsGo ts true := by
  simp only [columnsGo]
  rw [if_pos trivial]

theorem columnsGo_notOpen_skip : ∀ (pre ts : List String),
    "(" ∉ pre → ")" ∉ pre → columnsGo (pre ++ ts) false = columnsGo ts false := by
  intro pre
  induction pre with
  | nil =>
    intro ts _ _
    simp
  | cons t rest ih =>
    intro ts hop hcp
    have h1 : t ≠ "(" := fun h => hop (h ▸ List.mem_cons_self t rest)
    have h2 : t ≠ ")" := fun h => hcp (h ▸ List.mem_cons_self t rest)
    simp only [List.cons_append, columnsGo]
    rw [if_neg h1, if_neg h2, if_neg (by simp)]
    exact ih ts (fun h => hop (List.mem_cons_of_mem _ h))
      (fun h => hcp (List.mem_cons_of_mem _ h))

theorem columnsGo_no_open : ∀ (ts : List String), "(" ∉ ts → columnsGo ts false = [] := by
  intro ts
  induction ts with
  | nil =>
    intro _
    rfl
  | cons t rest ih =>
    intro hop
    have h1 : t ≠ "(" := fun h => hop (h ▸ List.mem_cons_self t rest)
    simp only [columnsGo]
    rw [if_neg h1]
    by_cases h2 : t = ")"
    · rw [if_pos h2]
    · rw [if_neg h2, if_neg (by simp)]
      exact ih (fun h => hop (List.mem_cons_of_mem _ h))

theorem columnsGo_collect : ∀ (mid post : List String), ")" ∉ mid →
    columnsGo (mid ++ ")" :: post) true =
      mid.filter (fun t => !(t == "(" || t == ",")) := by
  intro mid
  induction mid with
  | nil =>
    intro post _
    simp only [List.nil_append, columnsGo]
    rw [if_pos trivial]
    simp
  | cons t rest ih =>
    intro post hcp
    have h2 : t ≠ ")" := fun h => hcp (h ▸ List.mem_cons_self t rest)
    have htail : ")" ∉ rest := fun h => hcp (List.mem_cons_of_mem _ h)
    show columnsGo (t :: (rest ++ ")" :: post)) true = _
    simp only [columnsGo]
    by_cases h1 : t = "("
    · rw [if_pos h1, ih post htail]
      subst h1
      simp
    · rw [if_neg h1, if_neg h2]
      by_cases h3 : t = ","
      · rw [if_neg (by simp [h3]), ih post htail]
        subst h3
        simp
      · rw [if_pos ⟨trivial, h3⟩, ih post htail]
        simp [List.filter_cons, h1, h3]

/-! ## Claim theorems -/

/-- Claim C1 counterexample: in the stream of "(a (b)" a second standalone
`(` token occurs after the first one and before the first `)`, yet it does
not appear in the ColumnList — the extractor yields only the two
identifiers, not the list with the inner `(` the claim predicts. -/
theorem c1_counterexample :
    extractColumns "(a (b)" = ["a", "b"] ∧
      "(" ∉ extractColumns "(a (b)" ∧
      columns ["(", "a", "(", "b", ")"] = ["a", "b"] ∧
      columns ["(", "a", "(", "b", ")"] ≠ ["a", "(", "b"] := by decide

/-- Claim C1 (amended): after the first `(` token the extractor collects every
subsequent token except `,` and `(` tokens into the ColumnList in stream
order, stopping immediately, without including it, at the first `)` token; a
second standalone `(` token after the first one is not nesting-aware — it
merely re-marks the already-set opening-parenthesis flag and is omitted from
the ColumnList. -/
theorem c1_extractor_collects (pre mid post : List String)
    (hpre1 : "(" ∉ pre) (hpre2 : ")" ∉ pre) (hmid : ")" ∉ mid) :
    columns (pre ++ "(" :: (mid ++ ")" :: post)) =
      mid.filter (fun t => !(t == "(" || t == ",")) := by
  unfold columns
  rw [columnsGo_notOpen_skip pre _ hpre1 hpre2, columnsGo_open,
    columnsGo_collect mid post hmid]

/-- Witness for C1 at a concrete stream. -/
theorem c1_witness :
    ("(" ∉ (["t"] : List String)) ∧ (")" ∉ (["t"] : List String)) ∧
      (")" ∉ (["a", "(", "b"] : List String)) ∧
      columns (["t"] ++ "(" :: (["a", "(", "b"] ++ ")" :: [])) = ["a", "b"] :=
  ⟨by decide, by decide, by decide, by
    rw [c1_extractor_collects ["t"] ["a", "(", "b"] [] (by decide) (by decide) (by decide)]
    decide⟩

/-- Claim C2 counterexample: a `)` token occurring before any `(` token does
change the result — the stream [")", "(", "a", ")"] has exactly the tokens
["(", "a", ")"] at and after its first `(`, yet extraction returns the empty
list instead of ["a"]; likewise at the string level for ") (a)" vs "(a)". -/
theorem c2_counterexample :
    columns [")", "(", "a", ")"] = [] ∧ columns ["(", "a", ")"] = ["a"] ∧
      columns [")", "(", "a", ")"] ≠ columns ["(", "a", ")"] ∧
      extractColumns ") (a)" = [] ∧ extractColumns "(a)" = ["a"] := by decide

/-- Claim C2 (amended): tokens before the first `(` token are ignored
provided none of them is `)`, and the ColumnList then depends only on the
tokens from the first `(` on; a `)` token occurring before any `(` instead
terminates extraction at once with the (empty) list collected so far; a
stream with no `(` token yields an empty ColumnList. -/
theorem c2_prefix_ignored :
    (∀ (pre ts : List String), "(" ∉ pre → ")" ∉ pre →
      columns (pre ++ ts) = columns ts) ∧
    (∀ (ts : List String), columns (")" :: ts) = []) ∧
    (∀ (ts : List String), "(" ∉ ts → columns ts = []) := by
  refine ⟨?_, ?_, ?_⟩
  · intro pre ts h1 h2
    exact columnsGo_notOpen_skip pre ts h1 h2
  · intro ts
    rfl
  · intro ts h
    exact columnsGo_no_open ts h

/-- Witness for C2 at a concrete stream. -/
theorem c2_witness :
    ("(" ∉ (["x"] : List String)) ∧ (")" ∉ (["x"] : List String)) ∧
      columns (["x"] ++ ["(", "a", ")"]) = columns ["(", "a", ")"] :=
  ⟨by decide, by decide, c2_prefix_ignored.1 ["x"] ["(", "a", ")"] (by decide) (by decide)⟩

/-- Claim C3 counterexample: on the unclosed-quote input "`" parse reports the
unclosed-backtick error and the token stream it produces contains the
empty-string token (the source appends `string(nil)` for the failed scan). -/
theorem c3_counterexample :
    parse "`" = ([""], [ParseError.unclosedBacktick]) ∧ "" ∈ (parse "`").1 := by decide

/-- Claim C3 (amended): the TokenStream contains no empty-string token on
every input whose tokenization reports no unclosed-quote error; an
unclosed-quote failure is the one case that appends an empty token. -/
theorem c3_no_empty_tokens (query : String)
    (hbt : ParseError.unclosedBacktick ∉ (parse query).2)
    (hsq : ParseError.unclosedSingleQuote ∉ (parse query).2) :
    ∀ t ∈ (parse query).1, t ≠ "" :=
  parseLoop_no_empty_token query.data.length query.data hbt hsq

/-- Witness for C3 on a concrete error-free input. -/
theorem c3_witness :
    (ParseError.unclosedBacktick ∉ (parse "a").2) ∧
      (ParseError.unclosedSingleQuote ∉ (parse "a").2) ∧
      ("a" ∈ (parse "a").1) ∧ ("a" : String) ≠ "" :=
  ⟨by decide, by decide, by decide,
    c3_no_empty_tokens "a" (by decide) (by decide) "a" (by decide)⟩

/-- Claim C4: a quote scan terminates at a step exactly when the matching
quote character is read and the immediately preceding accumulated code point
is not a backslash (a one-step look-back); consequently, when a literal
backslash (escaped as two backslashes) immediately precedes the real closing
quote, the scan continues past that closing quote — on the backtick-scan
remainder of "a\\\\` b" (and its single-quote analogue) it runs to the end of
input and fails instead of stopping at the quote after the backslashes. -/
theorem c4_lookback_termination :
    (∀ (r : Char) (rest currToken : List Char), currToken ≠ [] →
      (parseUntilClosingBackTick (r :: rest) currToken = (some (currToken ++ [r]), rest) ↔
        (r = backTick ∧ currToken.getLast? ≠ some backslash))) ∧
    (∀ (r : Char) (rest currToken : List Char), currToken ≠ [] →
      (parseUntilClosingSingleQuote (r :: rest) currToken = (some (currToken ++ [r]), rest) ↔
        (r = singleQuote ∧ currToken.getLast? ≠ some backslash))) ∧
    parseUntilClosingBackTick ("a\\\\".data ++ backTick :: " b".data) [backTick] = (none, []) ∧
    parseUntilClosingSingleQuote ("a\\\\".data ++ singleQuote :: " b".data) [singleQuote] =
      (none, []) :=
  ⟨parseUntilClosingBackTick_step_iff, parseUntilClosingSingleQuote_step_iff,
    by decide, by decide⟩

/-- Witness for C4 at a concrete scan step. -/
theorem c4_witness :
    (([backTick] : List Char) ≠ []) ∧
      (parseUntilClosingBackTick [backTick] [backTick] =
          (some [backTick, backTick], []) ↔
        (backTick = backTick ∧ ([backTick] : List Char).getLast? ≠ some backslash)) :=
  ⟨by decide, c4_lookback_termination.1 backTick [] [backTick] (by decide)⟩

/-- Claim C5: a quoted token absorbs `(`, `)`, `,` and `.` as literal
content — any run of code points free of the matching delimiter (and whose
last code point is not a backslash) is scanned into the single quoted token,
terminated only by the matching delimiter at its end, so those characters
never become standalone punctuation tokens and cannot affect the extractor's
bracket matching; concretely "INSERT INTO table (`WEIGHT (kg)`)" extracts the
single column "`WEIGHT (kg)`". -/
theorem c5_quoted_absorption :
    (∀ (content rest : List Char), backTick ∉ content →
      content.getLast? ≠ some backslash →
      parseUntilClosingBackTick (content ++ backTick :: rest) [backTick] =
        (some (backTick :: (content ++ [backTick])), rest)) ∧
    (∀ (content rest : List Char), singleQuote ∉ content →
      content.getLast? ≠ some backslash →
      parseUntilClosingSingleQuote (content ++ singleQuote :: rest) [singleQuote] =
        (some (singleQuote :: (content ++ [singleQuote])), rest)) ∧
    extractColumns "INSERT INTO table (`WEIGHT (kg)`)" = ["`WEIGHT (kg)`"] := by
  refine ⟨?_, ?_, by decide⟩
  · intro content rest hmem hlast
    have hlast' : ([backTick] ++ content).getLast? ≠ some backslash := by
      cases content with
      | nil => decide
      | cons c cs =>
        rw [List.getLast?_append_of_ne_nil _ (by simp)]
        exact hlast
    have habs := parseUntilClosingBackTick_absorb content rest [backTick] hmem (by simp) hlast'
    simpa using habs
  · intro content rest hmem hlast
    have hlast' : ([singleQuote] ++ content).getLast? ≠ some backslash := by
      cases content with
      | nil => decide
      | cons c cs =>
        rw [List.getLast?_append_of_ne_nil _ (by simp)]
        exact hlast
    have habs := parseUntilClosingSingleQuote_absorb content rest [singleQuote] hmem
      (by simp) hlast'
    simpa using habs

/-- Witness for C5 at a concrete quoted run containing a parenthesis. -/
theorem c5_witness :
    (backTick ∉ (['('] : List Char)) ∧ ((['('] : List Char).getLast? ≠ some backslash) ∧
      parseUntilClosingBackTick (['('] ++ backTick :: []) [backTick] =
        (some (backTick :: (['('] ++ [backTick])), []) :=
  ⟨by decide, by decide, c5_quoted_absorption.1 ['('] [] (by decide) (by decide)⟩

/-- Claim C6: when the input ends while the scanner is inside a quoted token,
parse returns a non-empty error list containing the unclosed-quote error of
that quote kind, and the stream ends at the point of failure: the failed
quote's token is the final token, the unclosed-quote error is the final
error, nothing is produced after them, and every token produced before the
failure is still returned to the caller. -/
theorem c6_unclosed_quote_terminal :
    (∀ (query : String), ParseError.unclosedBacktick ∈ (parse query).2 →
      ∃ T E, parse query = (T ++ [""], E ++ [ParseError.unclosedBacktick])) ∧
    (∀ (query : String), ParseError.unclosedSingleQuote ∈ (parse query).2 →
      ∃ T E, parse query = (T ++ [""], E ++ [ParseError.unclosedSingleQuote])) ∧
    (∀ (fuel : Nat) (rest : List Char),
      (parseUntilClosingBackTick rest [backTick]).1 = none →
      parseLoop (fuel + 1) (backTick :: rest) = ([""], [ParseError.unclosedBacktick])) ∧
    (∀ (fuel : Nat) (rest : List Char),
      (parseUntilClosingSingleQuote rest [singleQuote]).1 = none →
      parseLoop (fuel + 1) (singleQuote :: rest) = ([""], [ParseError.unclosedSingleQuote])) := by
  refine ⟨?_, ?_, ?_, ?_⟩
  · intro query h
    exact parseLoop_unclosed_last ParseError.unclosedBacktick (Or.inl rfl)
      query.data.length query.data h
  · intro query h
    exact parseLoop_unclosed_last ParseError.unclosedSingleQuote (Or.inr rfl)
      query.data.length query.data h
  · intro fuel rest h
    exact parseLoop_backTick_unclosed fuel rest h
  · intro fuel rest h
    exact parseLoop_singleQuote_unclosed fuel rest h

/-- Witness for C6 on a concrete unclosed-backtick input. -/
theorem c6_witness :
    ((parseUntilClosingBackTick [] [backTick]).1 = none) ∧
      parseLoop 1 [backTick] = ([""], [ParseError.unclosedBacktick]) :=
  ⟨by decide, c6_unclosed_quote_terminal.2.2.1 0 [] (by decide)⟩

/-- Claim C7: an unexpected character in the Scanning state is non-fatal —
the unexpected-character error is recorded and the scan resumes at the next
code point, so the tokens of the rest of the input are still produced — and
parse aggregates all errors of one pass (on "#a$b" both unexpected characters
are reported together and both identifier tokens are produced). -/
theorem c7_unexpected_recoverable :
    (∀ (fuel : Nat) (r : Char) (rest : List Char),
      isSpace r = false → r ≠ backTick → r ≠ singleQuote →
      ¬(r = '(' ∨ r = ')' ∨ r = ',' ∨ r = '.') → validIdentifierChars r = false →
      parseLoop (fuel + 1) (r :: rest) =
        ((parseLoop fuel rest).1, ParseError.unexpectedRune r :: (parseLoop fuel rest).2)) ∧
    parse "#a$b" =
      (["a", "b"], [ParseError.unexpectedRune '#', ParseError.unexpectedRune '$']) :=
  ⟨parseLoop_unexpected, by decide⟩

/-- Witness for C7 at a concrete unexpected character. -/
theorem c7_witness :
    (isSpace '#' = false) ∧ ('#' ≠ backTick) ∧ ('#' ≠ singleQuote) ∧
      (¬('#' = '(' ∨ '#' = ')' ∨ '#' = ',' ∨ '#' = '.')) ∧
      (validIdentifierChars '#' = false) ∧
      parseLoop 1 ['#'] =
        ((parseLoop 0 []).1, ParseError.unexpectedRune '#' :: (parseLoop 0 []).2) :=
  ⟨by decide, by decide, by decide, by decide, by decide,
    c7_unexpected_recoverable.1 0 '#' [] (by decide) (by decide) (by decide)
      (by decide) (by decide)⟩

/-- Claim C8: adjacency invariance — "INSERT INTO t(a,b)" and
"INSERT INTO t (a, b)" tokenize to identical token streams and column lists,
an opening parenthesis is emitted as its own punctuation token no matter what
precedes it, and a whitespace code point is discarded without affecting the
rest of the scan. -/
theorem c8_adjacency_invariance :
    parse "INSERT INTO t(a,b)" = parse "INSERT INTO t (a, b)" ∧
    extractColumns "INSERT INTO t(a,b)" = ["a", "b"] ∧
    extractColumns "INSERT INTO t (a, b)" = ["a", "b"] ∧
    (∀ (fuel : Nat) (rest : List Char),
      parseLoop (fuel + 1) ('(' :: rest) =
        (String.mk ['('] :: (parseLoop fuel rest).1, (parseLoop fuel rest).2)) ∧
    (∀ (fuel : Nat) (r : Char) (rest : List Char), isSpace r = true →
      parseLoop (fuel + 1) (r :: rest) = parseLoop fuel rest) :=
  ⟨by decide, by decide, by decide, parseLoop_openParen, parseLoop_space⟩

/-- Witness for C8 at a concrete whitespace step. -/
theorem c8_witness :
    (isSpace ' ' = true) ∧ parseLoop 1 [' '] = parseLoop 0 [] :=
  ⟨by decide, c8_adjacency_invariance.2.2.2.2 0 ' ' [] (by decide)⟩

/-- Claim C9: tokenization terminates unconditionally with cost linear in the
input length — fuel equal to the number of remaining code points (the bound on
main-loop iterations, each of which consumes at least one code point) already
computes the final result and any larger fuel returns the same value, and
every quoted-token or identifier scan consumes only from the remaining input:
its unconsumed remainder never exceeds what was left. -/
theorem c9_termination_linear :
    (∀ (fuel : Nat) (cs : List Char), cs.length ≤ fuel →
      parseLoop fuel cs = parseLoop cs.length cs) ∧
    (∀ (rest currToken : List Char),
      (parseUntilClosingBackTick rest currToken).2.length ≤ rest.length) ∧
    (∀ (rest currToken : List Char),
      (parseUntilClosingSingleQuote rest currToken).2.length ≤ rest.length) ∧
    (∀ (rest currToken : List Char),
      (parseNonQuotedIdentifier rest currToken).2.length ≤ rest.length) := by
  refine ⟨?_, parseUntilClosingBackTick_rest_le, parseUntilClosingSingleQuote_rest_le,
    parseNonQuotedIdentifier_rest_le⟩
  intro fuel cs h
  exact parseLoop_fuel fuel cs.length cs h le_rfl

/-- Witness for C9 at a concrete input and oversized fuel. -/
theorem c9_witness :
    (("ab".data).length ≤ 5) ∧ parseLoop 5 "ab".data = parseLoop ("ab".data).length "ab".data :=
  ⟨by decide, c9_termination_linear.1 5 "ab".data (by decide)⟩

/-- Claim C10: the one-rune look-back of the quote scanners never reads out
of bounds — whenever the look-back is evaluated from a scan whose accumulated
token started non-empty (parse always seeds it with the opening quote), the
accumulated token holds at least two runes at that moment — and an empty
quoted token of two adjacent identical quote characters is scanned without
faulting and emitted as the two-character token. -/
theorem c10_lookback_in_bounds :
    (∀ (input currToken : List Char), currToken ≠ [] →
      ∀ n ∈ backTickLookbackLens input currToken, 2 ≤ n) ∧
    (∀ (input currToken : List Char), currToken ≠ [] →
      ∀ n ∈ singleQuoteLookbackLens input currToken, 2 ≤ n) ∧
    parse "``" = (["``"], []) ∧
    parse (String.mk [singleQuote, singleQuote]) =
      ([String.mk [singleQuote, singleQuote]], []) :=
  ⟨backTickLookbackLens_ge_two, singleQuoteLookbackLens_ge_two, by decide, by decide⟩

/-- Witness for C10 at a concrete scan. -/
theorem c10_witness :
    (([backTick] : List Char) ≠ []) ∧ (3 ∈ backTickLookbackLens ['a', backTick] [backTick]) ∧
      2 ≤ 3 :=
  ⟨by decide, by decide,
    c10_lookback_in_bounds.1 ['a', backTick] [backTick] (by decide) 3 (by decide)⟩

end ColumnParsing
